import Mathlib

/-!
# Verification of the CodeScribe evolutionary line-history engine

A shallow embedding of `src/services/gitAnalysisEngine.ts` (class
`GitAnalysisEngine`).  All git / GitHub process invocations are external
inputs; their stdout is modelled as oracle parameters (a `GitEnv` record or
explicit string arguments).  JavaScript string operations (`trim`, `split`,
`endsWith`, `startsWith`, template interpolation, `Array.prototype.sort`)
are modelled by executable Lean functions with the same semantics on the
inputs the engine handles.
-/

deriving instance DecidableEq for Except

namespace CodeScribe

/-! ## JavaScript string primitives -/

/-- ASCII whitespace recognised by JavaScript `trim` / `\s`. -/
def isJsSpace (c : Char) : Bool :=
  c = ' ' || c = '\t' || c = '\n' || c = '\r' ||
  c = (Char.ofNat 11) || c = (Char.ofNat 12)

/-- The regex class `\d`. -/
def isDigitChar (c : Char) : Bool := '0' ≤ c && c ≤ '9'

/-- The regex class `[a-f0-9]` used for blame commit hashes. -/
def isHexChar (c : Char) : Bool :=
  ('0' ≤ c && c ≤ '9') || ('a' ≤ c && c ≤ 'f')

def trimCharList (l : List Char) : List Char :=
  ((l.dropWhile isJsSpace).reverse.dropWhile isJsSpace).reverse

/-- JavaScript `String.prototype.trim` (ASCII whitespace). -/
def jsTrim (s : String) : String := ⟨trimCharList s.data⟩

def splitCharAux (sep : Char) : List Char → List (List Char)
  | [] => [[]]
  | x :: xs =>
    match splitCharAux sep xs with
    | [] => [[]]
    | h :: t => if x = sep then [] :: h :: t else (x :: h) :: t

/-- JavaScript `String.prototype.split` with a single-character separator. -/
def jsSplit (s : String) (sep : Char) : List String :=
  (splitCharAux sep s.data).map (fun l => ⟨l⟩)

/-- `leadsWith p l` is true when `p` is an initial segment of `l`. -/
def leadsWith : List Char → List Char → Bool
  | [], _ => true
  | _ :: _, [] => false
  | p :: ps, c :: cs => p = c && leadsWith ps cs

/-- JavaScript `String.prototype.startsWith`. -/
def jsStartsWith (s pat : String) : Bool := leadsWith pat.data s.data

/-- JavaScript `String.prototype.endsWith`. -/
def jsEndsWith (s pat : String) : Bool := leadsWith pat.data.reverse s.data.reverse

/-- JavaScript `Array.prototype.join`. -/
def joinSep (sep : String) : List String → String
  | [] => ""
  | [x] => x
  | x :: xs => x ++ sep ++ joinSep sep xs

/-- `filePath.split('/').pop()` (empty string when the path ends in `/`). -/
def lastSegment (s : String) : String := (jsSplit s '/').getLastD ""

/-- `filePath.split('/').pop() || filePath`. -/
def jsFilenameOf (filePath : String) : String :=
  if lastSegment filePath = "" then filePath else lastSegment filePath

/-- Numeric value of a digit string (`parseInt` on an all-digit match). -/
def digitsVal (ds : List Char) : Nat :=
  ds.foldl (fun acc c => acc * 10 + (c.toNat - '0'.toNat)) 0

/-- `affectedLines.join(', ')`. -/
def commaJoin (l : List Nat) : String := joinSep ", " (l.map Nat.repr)

/-! ## Range Blamer output parsing (`parseBlameWithLineTracking`)

The source scans the porcelain blame text line by line; every line whose
first 40 characters are lowercase hex (regex `^([a-f0-9]{40})`) assigns the
next tracked line number to that commit hash.  The JavaScript object
`lineCommitMap` with ascending numeric keys is modelled as an association
list in ascending key order. -/

/-- The regex `^([a-f0-9]{40})` applied to one line. -/
def matchCommitHash (line : String) : Option String :=
  let pre := line.data.take 40
  if pre.length = 40 && pre.all isHexChar then some ⟨pre⟩ else none

def parseBlameAux (startLine : Nat) : List String → List (Nat × String)
  | [] => []
  | l :: ls =>
    match matchCommitHash l with
    | some h => (startLine, h) :: parseBlameAux (startLine + 1) ls
    | none => parseBlameAux startLine ls

/-- `parseBlameWithLineTracking` from the source. -/
def parseBlameWithLineTracking (blameOutput : String) (startLine : Nat) :
    List (Nat × String) :=
  parseBlameAux startLine (jsSplit blameOutput '\n')

/-- Number of blame lines matching the commit-hash header regex. -/
def countHeaders (lines : List String) : Nat :=
  lines.countP (fun l => (matchCommitHash l).isSome)

/-! ## Line–Commit Mapper (`Array.from(new Set(Object.values(lineCommitMap)))`)

A JavaScript `Set` iterates in insertion order, skipping values already
present; `Object.values` on the ascending-keyed map yields the values in
ascending line order (the order of the association list built above). -/

/-- Insertion into a JavaScript `Set`, element by element. -/
def jsSetAdd : List String → List String → List String
  | seen, [] => seen
  | seen, x :: xs =>
    if x ∈ seen then jsSetAdd seen xs else jsSetAdd (seen ++ [x]) xs

/-- `Array.from(new Set(Object.values(lineCommitMap)))`. -/
def uniqueCommitsOf (lineCommitMap : List (Nat × String)) : List String :=
  jsSetAdd [] (lineCommitMap.map Prod.snd)

/-- Reference form of first-occurrence deduplication, used to reason about
`jsSetAdd`. -/
def eraseDupsKeepFirst : List String → List String
  | [] => []
  | x :: xs => x :: (eraseDupsKeepFirst xs).filter (fun y => y ≠ x)

/-! ## Hunk header parsing

The source matches `/@@\s*-(\d+)(?:,(\d+))?\s*\+(\d+)(?:,(\d+))?\s*@@/`
against each `@@` line.  The regex is unanchored, so the engine scans the
line for the first position where the pattern matches.  The character
classes at every choice point are disjoint, so a greedy match without
backtracking is exact. -/

/-- Greedy `\d+`: the parsed value and the rest of the input, or `none`
when no digit is present. -/
def parseNum (cs : List Char) : Option (Nat × List Char) :=
  let ds := cs.takeWhile isDigitChar
  if ds.isEmpty then none else some (digitsVal ds, cs.dropWhile isDigitChar)

/-- The optional group `(?:,(\d+))?`: when a comma is present it must be
followed by digits (otherwise the overall match at this position fails,
because `\s*\+` cannot consume the comma). -/
def parseCount (cs : List Char) : Option (Option Nat × List Char) :=
  match cs with
  | ',' :: rest =>
    let ds := rest.takeWhile isDigitChar
    if ds.isEmpty then none
    else some (some (digitsVal ds), rest.dropWhile isDigitChar)
  | _ => some (none, cs)

/-- `parseInt(match[i]) || 1`: an absent group gives `NaN || 1 = 1` and a
parsed `0` is falsy, also giving `1`. -/
def countOrOne : Option Nat → Nat
  | none => 1
  | some n => if n = 0 then 1 else n

/-- Attempt the hunk-header pattern at the start of `cs`; returns
`(oldStart, oldCount, newStart, newCount)` with the `|| 1` defaults
applied to the counts, exactly as the source does. -/
def matchHeaderAt (cs : List Char) : Option (Nat × Nat × Nat × Nat) :=
  match cs with
  | '@' :: '@' :: rest =>
    match (rest.dropWhile isJsSpace) with
    | '-' :: r2 =>
      match parseNum r2 with
      | none => none
      | some (oldStart, r3) =>
        match parseCount r3 with
        | none => none
        | some (oldCnt, r4) =>
          match (r4.dropWhile isJsSpace) with
          | '+' :: r6 =>
            match parseNum r6 with
            | none => none
            | some (newStart, r7) =>
              match parseCount r7 with
              | none => none
              | some (newCnt, r8) =>
                match (r8.dropWhile isJsSpace) with
                | '@' :: '@' :: _ =>
                  some (oldStart, countOrOne oldCnt, newStart, countOrOne newCnt)
                | _ => none
          | _ => none
    | _ => none
  | _ => none

/-- Scan the line left to right for the first matching position
(unanchored regex semantics). -/
def findHeaderMatch : List Char → Option (Nat × Nat × Nat × Nat)
  | [] => none
  | c :: cs =>
    match matchHeaderAt (c :: cs) with
    | some r => some r
    | none => findHeaderMatch cs

/-- `line.match(/@@\s*-(\d+)(?:,(\d+))?\s*\+(\d+)(?:,(\d+))?\s*@@/)`. -/
def parseHunkHeaderLine (line : String) : Option (Nat × Nat × Nat × Nat) :=
  findHeaderMatch line.data

/-! ## Hunk relevance and the extraction loop
(`extractHunksForTrackedLines`) -/

/-- The relevance test of `extractHunksForTrackedLines`:
`hasIntersection || hasAffectedLine` for a hunk whose post-change range is
`[newStart, newStart + newCount - 1]`. -/
def hunkRelevant (affectedLines : List Nat)
    (originalStartLine originalEndLine newStart newCount : Nat) : Bool :=
  let hunkStartLine := newStart
  let hunkEndLine := newStart + newCount - 1
  let hasIntersection :=
    !(decide (hunkEndLine < originalStartLine) ||
      decide (hunkStartLine > originalEndLine))
  let hasAffectedLine := affectedLines.any (fun lineNum =>
    decide (lineNum ≥ hunkStartLine) && decide (lineNum ≤ hunkEndLine))
  hasIntersection || hasAffectedLine

/-- Debug line pushed into `debugInfo` for every parsed hunk header. -/
def hunkDebugLine (hunkStartLine hunkEndLine : Nat)
    (rel inter aff : Bool) : String :=
  "Hunk: lines " ++ Nat.repr hunkStartLine ++ "-" ++ Nat.repr hunkEndLine ++
  ", relevant: " ++ (if rel then "true" else "false") ++
  ", intersection: " ++ (if inter then "true" else "false") ++
  ", affectedLine: " ++ (if aff then "true" else "false")

/-- Mutable locals of the `extractHunksForTrackedLines` loop. -/
structure HunkState where
  relevantHunks : List String
  currentHunk : List String
  hunkHeader : String
  currentNewLineNum : Nat
  inRelevantHunk : Bool
  debugInfo : List String
deriving DecidableEq

def initHunkState : HunkState :=
  { relevantHunks := [], currentHunk := [], hunkHeader := "",
    currentNewLineNum := 0, inRelevantHunk := false, debugInfo := [] }

/-- Flush the pending hunk if it is relevant and non-empty. -/
def flushHunk (st : HunkState) : List String :=
  if st.inRelevantHunk && !st.currentHunk.isEmpty then
    st.relevantHunks ++ [joinSep "\n" (st.hunkHeader :: st.currentHunk)]
  else st.relevantHunks

/-- One iteration of the `for (const line of lines)` loop.  Branch order
matters: a `---`/`+++` line inside a relevant hunk is consumed by the
content branch (it starts with `-`/`+`) before the skip branch can see
it. -/
def extractStep (affectedLines : List Nat)
    (originalStartLine originalEndLine : Nat)
    (st : HunkState) (line : String) : HunkState :=
  if jsStartsWith line "@@" then
    let rh := flushHunk st
    match parseHunkHeaderLine line with
    | some (_, _, newStart, newCount) =>
      let hunkStartLine := newStart
      let hunkEndLine := newStart + newCount - 1
      let hasIntersection :=
        !(decide (hunkEndLine < originalStartLine) ||
          decide (hunkStartLine > originalEndLine))
      let hasAffectedLine := affectedLines.any (fun lineNum =>
        decide (lineNum ≥ hunkStartLine) && decide (lineNum ≤ hunkEndLine))
      { relevantHunks := rh,
        currentHunk := [],
        hunkHeader := line,
        currentNewLineNum := newStart,
        inRelevantHunk := hasIntersection || hasAffectedLine,
        debugInfo := st.debugInfo ++
          [hunkDebugLine hunkStartLine hunkEndLine
            (hasIntersection || hasAffectedLine) hasIntersection
            hasAffectedLine] }
    | none => { st with relevantHunks := rh }
  else if st.inRelevantHunk &&
      (jsStartsWith line "+" || jsStartsWith line "-" ||
       jsStartsWith line " ") then
    { st with
      currentHunk := st.currentHunk ++ [line],
      currentNewLineNum :=
        if jsStartsWith line "+" || jsStartsWith line " " then
          st.currentNewLineNum + 1
        else st.currentNewLineNum }
  else st

/-- Run the loop over all diff lines and flush the final hunk, yielding
the relevant hunks and the accumulated per-hunk debug commentary. -/
def collectHunks (diffOutput : String) (affectedLines : List Nat)
    (originalStartLine originalEndLine : Nat) : List String × List String :=
  let finalSt := (jsSplit diffOutput '\n').foldl
    (extractStep affectedLines originalStartLine originalEndLine)
    initHunkState
  (flushHunk finalSt, finalSt.debugInfo)

/-- Everything of the no-relevant-hunks fallback element that precedes the
embedded diff text: the affected lines and the per-hunk analysis. -/
def hunkFallbackCommentary (affectedLines : List Nat)
    (originalStartLine originalEndLine : Nat) (debugInfo : List String) :
    String :=
  "# DEBUG: Hunk analysis for lines " ++ Nat.repr originalStartLine ++ "-" ++
  Nat.repr originalEndLine ++ ":\n" ++
  "# Affected lines: " ++ commaJoin affectedLines ++ "\n" ++
  "# " ++ joinSep "\n# " debugInfo ++ "\n\n" ++
  "# Full diff:\n"

/-- The element pushed when no relevant hunk was found: the debug
commentary followed by the whole unfiltered diff. -/
def hunkFallback (diffOutput : String) (affectedLines : List Nat)
    (originalStartLine originalEndLine : Nat) (debugInfo : List String) :
    String :=
  hunkFallbackCommentary affectedLines originalStartLine originalEndLine
    debugInfo ++ diffOutput

/-- `extractHunksForTrackedLines` from the source. -/
def extractHunksForTrackedLines (diffOutput : String)
    (affectedLines : List Nat)
    (originalStartLine originalEndLine : Nat) : List String :=
  let c :=
    collectHunks diffOutput affectedLines originalStartLine originalEndLine
  if c.1.isEmpty then
    [hunkFallback diffOutput affectedLines originalStartLine originalEndLine
      c.2]
  else c.1

/-! ## External process oracles

Every `execAsync` call is an interaction with git; its stdout is an input
of the computation.  `showMeta h` is `git show --format="%H|%an|%ad|%s"
--no-patch h` (`none` models a process failure, which the source catches
per commit); `showDiff h p` is `git show h --format="" -- p`; `nameOnly h`
is `git show h --name-only --format=""`.  The latter two can fail too:
`Except.error err` models a thrown process error whose string rendering
(JavaScript `` `${error}` ``) is `err`; such a throw escapes to the
`try`/`catch` of `getLineEvolutionDiff`, which turns it into an
error-string diff.  Both the direct-path tier and the alternative-path
retries of `getLineEvolutionDiff` issue the same
`git show <hash> --format="" -- <path>` command, hence share `showDiff`.
`getLineEvolutionDiff` consults no other git command: in particular it
never runs `git diff <hash>^..<hash>`. -/

structure GitEnv where
  showMeta : String → Option String
  showDiff : String → String → Except String String
  nameOnly : String → Except String String

/-- The literal command string the source builds (tracked only because the
"no changes" debug message embeds the last command executed). -/
def gitShowCmd (commitHash p : String) : String :=
  "git show " ++ commitHash ++ " --format=\"\" -- \"" ++ p ++ "\""

/-! ## Commit Resolver: `getLineEvolutionDiff` -/

/-- `Object.keys(lineCommitMap).map(Number).filter(l => map[l] === hash)`:
the tracked lines owned by this commit, in ascending order. -/
def affectedLinesFor (lineCommitMap : List (Nat × String))
    (commitHash : String) : List Nat :=
  (lineCommitMap.filter (fun p => p.2 = commitHash)).map (fun p => p.1)

/-- Candidate alternative paths: the commit's modified files whose path
ends with the filename string (`f.endsWith(fileName)` in the source — a
suffix test on the whole path, not an equality test on the basename). -/
def possiblePathsOf (modifiedFilesOut fileName : String) : List String :=
  (jsSplit (jsTrim modifiedFilesOut) '\n').filter
    (fun f => jsEndsWith f fileName)

/-- The `for (const possiblePath of possiblePaths)` loop: skip empty
candidates and the caller's own path, run the diff for the others in list
order, and stop at the first whose output is non-empty after trimming.
A thrown process error (`Except.error`) escapes the loop — the enclosing
`try` has no handler inside the loop.  On normal exit, returns the final
`fullDiff` and the final `gitCommand` variable. -/
def tryAlternativesLoop (diffAt : String → Except String String)
    (commitHash filePath : String) :
    List String → String → String → Except String (String × String)
  | [], fullDiff, gitCommand => Except.ok (fullDiff, gitCommand)
  | p :: ps, fullDiff, gitCommand =>
    if p ≠ "" ∧ p ≠ filePath then
      let cmd := gitShowCmd commitHash p
      match diffAt p with
      | Except.error err => Except.error err
      | Except.ok d =>
        if jsTrim d ≠ "" then Except.ok (d, cmd)
        else tryAlternativesLoop diffAt commitHash filePath ps fullDiff cmd
    else tryAlternativesLoop diffAt commitHash filePath ps fullDiff gitCommand

/-- The "no changes" debug message of `getLineEvolutionDiff`. -/
def noChangesMsg (filePath : String) (affectedLines : List Nat)
    (gitCommand workingDir : String) : String :=
  "# No changes found for " ++ filePath ++ " in this commit\n" ++
  "# Affected lines: " ++ commaJoin affectedLines ++ "\n" ++
  "# Git command: " ++ gitCommand ++ "\n" ++
  "# Working dir: " ++ workingDir

/-- The tail of `getLineEvolutionDiff` once a non-empty diff is in hand:
filter to the relevant hunks and join them (or, were the extraction ever
to come back empty, show the whole diff with debug commentary). -/
def renderFilteredDiff (fullDiff : String) (affectedLines : List Nat)
    (startLine endLine : Nat) : String :=
  let relevantHunks :=
    extractHunksForTrackedLines fullDiff affectedLines startLine endLine
  if relevantHunks.isEmpty then
    "# DEBUG: No relevant hunks found for lines " ++
    Nat.repr startLine ++ "-" ++ Nat.repr endLine ++ "\n" ++
    "# This commit modified lines: " ++ commaJoin affectedLines ++ "\n" ++
    "# Full diff for analysis:\n\n" ++ fullDiff
  else joinSep "\n\n" relevantHunks

/-- `getLineEvolutionDiff` from the source.  Tier 1: the diff at the
caller's path.  Tier 2: retry with same-named files the commit modified.
There is no further tier: when both are empty the function returns the
"no changes" debug message.  The whole body runs inside a `try`/`catch`:
the first process error thrown by any of the three `git show`
invocations aborts the body and the `catch` returns an error-string diff
naming the commit and file — the function always returns a string, never
throws. -/
def getLineEvolutionDiffCore (env : GitEnv) (commitHash filePath : String)
    (lineCommitMap : List (Nat × String)) (startLine endLine : Nat)
    (workingDir : String) : String :=
  let affectedLines := affectedLinesFor lineCommitMap commitHash
  if affectedLines.isEmpty then
    "# This commit did not modify the selected lines (" ++
    Nat.repr startLine ++ "-" ++ Nat.repr endLine ++ ")"
  else
    let gitCommand := gitShowCmd commitHash filePath
    let attempt : Except String String :=
      match env.showDiff commitHash filePath with
      | Except.error err => Except.error err
      | Except.ok directDiff =>
        let step2 : Except String (String × String) :=
          if jsTrim directDiff = "" then
            match env.nameOnly commitHash with
            | Except.error err => Except.error err
            | Except.ok nameOnlyOut =>
              tryAlternativesLoop (env.showDiff commitHash) commitHash
                filePath
                (possiblePathsOf nameOnlyOut (lastSegment filePath))
                directDiff gitCommand
          else Except.ok (directDiff, gitCommand)
        match step2 with
        | Except.error err => Except.error err
        | Except.ok res =>
          if jsTrim res.1 = "" then
            Except.ok (noChangesMsg filePath affectedLines res.2 workingDir)
          else
            Except.ok
              (renderFilteredDiff res.1 affectedLines startLine endLine)
    match attempt with
    | Except.ok out => out
    | Except.error err =>
      "# Error retrieving line evolution diff: " ++ err ++
      "\n# Commit: " ++ commitHash ++ "\n# File: " ++ filePath

/-! ## The unused `getCommitDiff` helper

This private method implements a three-tier chain (direct path, basename
search over `git ls-tree -r --name-only <hash> | grep -E "(^|/)name$"`,
and a parent diff `git diff <hash>^..<hash> -- "*name"`), but no code in
the repository calls it; the pipeline resolves diffs exclusively through
`getLineEvolutionDiff`.  The piped `ls-tree | grep` output and the parent
diff output are process results, modelled as oracle arguments (`none`
models a failing process, e.g. `grep` exiting non-zero). -/

def getCommitDiffCore (directDiff filePath : String)
    (lsGrepOut : Option String) (diffAt : String → String)
    (parentDiff : Option String) : String :=
  if (jsTrim directDiff).length > 0 then jsTrim directDiff
  else
    let filename := jsFilenameOf filePath
    let tier2 : Option String :=
      match lsGrepOut with
      | none => none
      | some out =>
        let foundFiles :=
          (jsSplit (jsTrim out) '\n').filter (fun f => jsTrim f ≠ "")
        match foundFiles with
        | [] => none
        | actualPath :: _ =>
          let d := diffAt actualPath
          if (jsTrim d).length > 0 then some (jsTrim d) else none
    match tier2 with
    | some d => d
    | none =>
      match parentDiff with
      | some pd =>
        if (jsTrim pd).length > 0 then jsTrim pd
        else "# No changes found for " ++ filename ++ " in this commit"
      | none => "# No changes found for " ++ filename ++ " in this commit"

/-! ## Commit details (`getCommitDetailsWithLineTracking`) -/

structure CommitInfo where
  hash : String
  author : String
  date : String
  message : String
  diff : String
  filename : String
deriving DecidableEq

/-- Parse `git show --format="%H|%an|%ad|%s" --no-patch` output:
`stdout.trim().split('|')`, requiring at least four parts; the message is
`parts.slice(3).join('|')`. -/
def parseShowParts (stdout : String) :
    Option (String × String × String × String) :=
  let parts := jsSplit (jsTrim stdout) '|'
  if parts.length ≥ 4 then
    some (parts.getD 0 "", parts.getD 1 "", parts.getD 2 "",
      joinSep "|" (parts.drop 3))
  else none

/-- The body of the per-commit `try` block: `none` models the `catch`
(a failed `git show`, or fewer than four parts yields no entry either). -/
def resolveCommitInfo (env : GitEnv) (filePath workingDir : String)
    (lineCommitMap : List (Nat × String)) (startLine endLine : Nat)
    (commitHash : String) : Option CommitInfo :=
  match env.showMeta commitHash with
  | none => none
  | some out =>
    match parseShowParts out with
    | none => none
    | some (hh, au, da, msg) =>
      some { hash := hh, author := au, date := da, message := msg,
             diff := getLineEvolutionDiffCore env commitHash filePath
               lineCommitMap startLine endLine workingDir,
             filename := jsFilenameOf filePath }

/-- JavaScript's date-descending sort
`(a, b) => new Date(b.date).getTime() - new Date(a.date).getTime()`;
`dateTime` is the `Date` parsing oracle.  `Array.prototype.sort` is
stable, modelled by insertion sort. -/
def sortByDateDesc (dateTime : String → Int) (l : List CommitInfo) :
    List CommitInfo :=
  l.insertionSort (fun a b => dateTime b.date ≤ dateTime a.date)

/-- `getCommitDetailsWithLineTracking` from the source: resolve each
commit inside its own `try`/`catch` (collecting successful ones in input
order), then sort by date, most recent first. -/
def getCommitDetailsCore (env : GitEnv) (commits : List String)
    (filePath workingDir : String) (lineCommitMap : List (Nat × String))
    (startLine endLine : Nat) (dateTime : String → Int) : List CommitInfo :=
  sortByDateDesc dateTime
    (commits.filterMap
      (resolveCommitInfo env filePath workingDir lineCommitMap startLine
        endLine))

/-! ## Pull requests and the timeline (`findPullRequests`,
`createTimeline`)

The GitHub CLI lookups (`gh pr list`, `gh pr view`, `gh issue view`) for
one commit are collapsed into a single oracle returning the assembled
`PullRequestInfo` (or `none` when no merged PR is found or the process
fails — both land in the same `catch`/empty-list path). -/

structure PullRequestComment where
  author : String
  body : String
  createdAt : String
deriving DecidableEq

structure LinkedIssue where
  number : Int
  title : String
  url : String
deriving DecidableEq

structure PullRequestInfo where
  number : Int
  title : String
  body : String
  author : String
  url : String
  createdAt : String
  mergedAt : String
  comments : List PullRequestComment
  linkedIssues : List LinkedIssue
deriving DecidableEq

/-- `pullRequests.filter((pr, i, self) => i === self.findIndex(p =>
p.number === pr.number))`: keep the first occurrence of each PR number. -/
def keepFirstByNumber : List PullRequestInfo → List PullRequestInfo
  | [] => []
  | p :: ps => p :: (keepFirstByNumber ps).filter (fun q => q.number ≠ p.number)

/-- `findPullRequests` from the source: per-commit lookup (failures
skipped), deduplication by PR number, then sort by `createdAt`, most
recent first. -/
def findPullRequestsCore (commits : List String)
    (prFor : String → Option PullRequestInfo) (dateTime : String → Int) :
    List PullRequestInfo :=
  (keepFirstByNumber (commits.filterMap prFor)).insertionSort
    (fun a b => dateTime b.createdAt ≤ dateTime a.createdAt)

inductive TimelineData where
  | commit : CommitInfo → TimelineData
  | pullRequest : PullRequestInfo → TimelineData
deriving DecidableEq

structure TimelineItem where
  type : String
  date : String
  data : TimelineData
deriving DecidableEq

/-- `createTimeline` from the source. -/
def createTimeline (commits : List CommitInfo)
    (pullRequests : List PullRequestInfo) (dateTime : String → Int) :
    List TimelineItem :=
  (commits.map (fun c =>
      ({ type := "commit", date := c.date,
         data := TimelineData.commit c } : TimelineItem)) ++
    pullRequests.map (fun p =>
      ({ type := "pullRequest", date := p.createdAt,
         data := TimelineData.pullRequest p } : TimelineItem))).insertionSort
    (fun a b => dateTime b.date ≤ dateTime a.date)

structure GitAnalysisResult where
  commits : List CommitInfo
  pullRequests : List PullRequestInfo
  timeline : List TimelineItem
deriving DecidableEq

/-- `analyzeSelection` after its preflight (repository found, file
tracked, blame ran): parse the blame text, deduplicate commits, resolve
details, find PRs, build the timeline.  The returned record is
`GitAnalysisResult` exactly as in `src/types/index.ts` — it has no field
distinguishing "no history" from "zero commits". -/
def analyzeCore (env : GitEnv) (prFor : String → Option PullRequestInfo)
    (dateTime : String → Int) (blameOutput filePath workingDir : String)
    (startLine endLine : Nat) : GitAnalysisResult :=
  let lineCommitMap := parseBlameWithLineTracking blameOutput startLine
  let commits := uniqueCommitsOf lineCommitMap
  let commitInfos := getCommitDetailsCore env commits filePath workingDir
    lineCommitMap startLine endLine dateTime
  let pullRequests := findPullRequestsCore commits prFor dateTime
  let timeline := createTimeline commitInfos pullRequests dateTime
  { commits := commitInfos, pullRequests := pullRequests,
    timeline := timeline }

/-! ## Auxiliary definitions for the statements -/

/-- Index of the first occurrence of `c`, used to state "first-seen
order". -/
def firstIdx (c : String) : List String → Nat
  | [] => 0
  | x :: xs => if x = c then 0 else firstIdx c xs + 1

/-- Predicate for the candidate path at which the retry loop stops: a
non-empty candidate that differs from the caller's path and whose diff
invocation either throws (the error escapes the loop) or returns output
that is non-empty after trimming (accepted). -/
def decisiveCandidate (diffAt : String → Except String String)
    (filePath p : String) : Bool :=
  decide (p ≠ "") && decide (p ≠ filePath) &&
    (match diffAt p with
     | Except.error _ => true
     | Except.ok d => decide (jsTrim d ≠ ""))

/-- Oracle for exercising failure isolation: metadata resolution fails
for every commit except `"good"`. -/
def envOneGood : GitEnv :=
  { showMeta := fun c => if c = "good" then some "H|Au|D|Msg" else none,
    showDiff := fun _ _ => Except.ok "",
    nameOnly := fun _ => Except.ok "" }

/-- Oracle for exercising diff-process failure isolation: metadata
resolves, but every diff invocation throws. -/
def envDiffFail : GitEnv :=
  { showMeta := fun _ => some "H|Au|D|Msg",
    showDiff := fun _ _ => Except.error "boom",
    nameOnly := fun _ => Except.error "boom" }

/-- Oracle for exercising the date re-sort: two commits with distinct
dates, both resolvable. -/
def envTwoDates : GitEnv :=
  { showMeta := fun c =>
      if c = "c1" then some "h1|a|d1|m" else some "h2|a|d2|m",
    showDiff := fun _ _ => Except.ok "x",
    nameOnly := fun _ => Except.ok "" }

/-- Date oracle making `d1` older than `d2`. -/
def dateTimeTwo (d : String) : Int := if d = "d1" then 1 else 2

/-- Trivial oracle: every process yields nothing. -/
def envTriv : GitEnv :=
  { showMeta := fun _ => none, showDiff := fun _ _ => Except.ok "",
    nameOnly := fun _ => Except.ok "" }

/-! ## Claim theorems -/

/-- C6: the header `@@ -10,3 +12,5 @@` parses to
`oldStart = 10, oldCount = 3, newStart = 12, newCount = 5`, and a header
with omitted counts such as `@@ -10 +12 @@` parses with the omitted
counts equal to `1`. -/
theorem hunk_header_parsing :
    parseHunkHeaderLine "@@ -10,3 +12,5 @@" = some (10, 3, 12, 5) ∧
    parseHunkHeaderLine "@@ -10 +12 @@" = some (10, 1, 12, 1) := by
  exact ⟨by decide, by decide⟩

/-- C2: a parsed hunk with new-range `[newStart, newStart + newCount - 1]`
is selected iff that range intersects the target `[s, e]`
(`hunkEnd ≥ s ∧ hunkStart ≤ e`) or some affected line lies inside it;
`extractStep` sets `inRelevantHunk` to exactly this test; a hunk covering
`[12,16]` is selected for target `14..14`, and excluded for target
`20..22` when no affected line lies in `[12,16]`. -/
theorem hunk_selection_iff :
    (∀ (a : List Nat) (s e ns nc : Nat),
      hunkRelevant a s e ns nc = true ↔
        ((ns + nc - 1 ≥ s ∧ ns ≤ e) ∨ ∃ n ∈ a, ns ≤ n ∧ n ≤ ns + nc - 1)) ∧
    (∀ (st : HunkState) (a : List Nat) (s e : Nat) (line : String)
      (os oc ns nc : Nat),
      jsStartsWith line "@@" = true →
      parseHunkHeaderLine line = some (os, oc, ns, nc) →
      (extractStep a s e st line).inRelevantHunk = hunkRelevant a s e ns nc) ∧
    hunkRelevant [] 14 14 12 5 = true ∧
    hunkRelevant [20, 21] 20 22 12 5 = false := by
  refine ⟨?_, ?_, by decide, by decide⟩
  · intro a s e ns nc
    simp only [hunkRelevant, Bool.or_eq_true, Bool.not_eq_true',
      Bool.or_eq_false_iff, decide_eq_false_iff_not, Nat.not_lt,
      Nat.not_gt_eq, List.any_eq_true, Bool.and_eq_true, decide_eq_true_eq,
      ge_iff_le]
  · intro st a s e line os oc ns nc hstart hparse
    simp [extractStep, hstart, hparse, hunkRelevant]

/-- Witness for C2 at a concrete hunk header. -/
theorem hunk_selection_iff_witness :
    (extractStep [] 14 14 initHunkState
      "@@ -10,3 +12,5 @@").inRelevantHunk = hunkRelevant [] 14 14 12 5 :=
  hunk_selection_iff.2.1 initHunkState [] 14 14 "@@ -10,3 +12,5 @@"
    10 3 12 5 (by decide) (by decide)

/-- C10: the hunk extraction function never returns an empty list; when
no hunk survives the loop, the single returned element is the debug
commentary followed by the entire unfiltered diff text. -/
theorem extract_hunks_fallback :
    ∀ (d : String) (a : List Nat) (s e : Nat),
      extractHunksForTrackedLines d a s e ≠ [] ∧
      ((collectHunks d a s e).1 = [] →
        extractHunksForTrackedLines d a s e =
          [hunkFallbackCommentary a s e (collectHunks d a s e).2 ++ d]) := by
  intro d a s e
  constructor
  · by_cases h : (collectHunks d a s e).1.isEmpty
    · simp [extractHunksForTrackedLines, h]
    · simp only [extractHunksForTrackedLines, h, if_neg]
      simpa [List.isEmpty_iff] using h
  · intro h
    simp [extractHunksForTrackedLines, h, hunkFallback]

/-- Witness for C10: an input with no hunks at all takes the fallback
branch and embeds the whole diff. -/
theorem extract_hunks_fallback_witness :
    extractHunksForTrackedLines "junk" [5] 5 5 ≠ [] ∧
    extractHunksForTrackedLines "junk" [5] 5 5 =
      [hunkFallbackCommentary [5] 5 5 (collectHunks "junk" [5] 5 5).2 ++
        "junk"] :=
  ⟨(extract_hunks_fallback "junk" [5] 5 5).1,
   (extract_hunks_fallback "junk" [5] 5 5).2 (by decide)⟩

/-- The keys produced by the blame parser are consecutive line numbers
starting at `startLine`, one per header line. -/
theorem parseBlameAux_keys (ls : List String) :
    ∀ s, (parseBlameAux s ls).map Prod.fst =
      List.range' s (countHeaders ls) := by
  induction ls with
  | nil => intro s; simp [parseBlameAux, countHeaders]
  | cons l ls ih =>
    intro s
    cases h : matchCommitHash l with
    | some hsh =>
      have hc : countHeaders (l :: ls) = countHeaders ls + 1 := by
        simp [countHeaders, List.countP_cons, h]
      rw [hc, List.range'_succ]
      simp [parseBlameAux, h, ih]
    | none =>
      have hc : countHeaders (l :: ls) = countHeaders ls := by
        simp [countHeaders, List.countP_cons, h]
      rw [hc]
      simp [parseBlameAux, h, ih]

/-- C3: when the blame text contains one commit-hash header line per
physical line of a valid range `[s, e]`, the produced line-to-commit map
has exactly `e - s + 1` entries, one for each line number from `s` to
`e`, with no missing key. -/
theorem blame_map_total (blameOutput : String) (s e : Nat) (hse : s ≤ e)
    (hcount : countHeaders (jsSplit blameOutput '\n') = e - s + 1) :
    (parseBlameWithLineTracking blameOutput s).length = e - s + 1 ∧
    (parseBlameWithLineTracking blameOutput s).map Prod.fst =
      List.range' s (e - s + 1) ∧
    ∀ n, s ≤ n → n ≤ e →
      ∃ c, (n, c) ∈ parseBlameWithLineTracking blameOutput s := by
  have hkeys := parseBlameAux_keys (jsSplit blameOutput '\n') s
  rw [hcount] at hkeys
  refine ⟨?_, hkeys, ?_⟩
  · have := congrArg List.length hkeys
    simpa using this
  · intro n h1 h2
    have hn : n ∈ List.range' s (e - s + 1) := by
      rw [List.mem_range']
      exact ⟨n - s, by omega, by omega⟩
    rw [← hkeys] at hn
    rcases List.mem_map.mp hn with ⟨⟨n', c⟩, hmem, heq⟩
    simp only at heq
    exact ⟨c, heq ▸ hmem⟩

/-- Witness for C3 on a two-line porcelain blame excerpt, together with a
concrete evaluation of the parser. -/
theorem blame_map_total_witness :
    parseBlameWithLineTracking
      ("aaaaaaaaaaaaaaaaaaaaaaaaaaaaaaaaaaaaaaaa 1 10 1\n\tsome code\n" ++
       "bbbbbbbbbbbbbbbbbbbbbbbbbbbbbbbbbbbbbbbb 2 11 1\n\tmore code") 10 =
      [(10, "aaaaaaaaaaaaaaaaaaaaaaaaaaaaaaaaaaaaaaaa"),
       (11, "bbbbbbbbbbbbbbbbbbbbbbbbbbbbbbbbbbbbbbbb")] ∧
    (parseBlameWithLineTracking
      ("aaaaaaaaaaaaaaaaaaaaaaaaaaaaaaaaaaaaaaaa 1 10 1\n\tsome code\n" ++
       "bbbbbbbbbbbbbbbbbbbbbbbbbbbbbbbbbbbbbbbb 2 11 1\n\tmore code")
      10).length = 11 - 10 + 1 :=
  ⟨by decide,
   (blame_map_total
     ("aaaaaaaaaaaaaaaaaaaaaaaaaaaaaaaaaaaaaaaa 1 10 1\n\tsome code\n" ++
      "bbbbbbbbbbbbbbbbbbbbbbbbbbbbbbbbbbbbbbbb 2 11 1\n\tmore code")
     10 11 (by decide) (by decide)).1⟩

theorem filter_eraseDupsKeepFirst (q : String → Bool) :
    ∀ l, (eraseDupsKeepFirst l).filter q =
      eraseDupsKeepFirst (l.filter q) := by
  intro l
  induction l with
  | nil => simp [eraseDupsKeepFirst]
  | cons y ys ih =>
    by_cases hq : q y = true
    · rw [eraseDupsKeepFirst, List.filter_cons_of_pos hq,
        List.filter_cons_of_pos hq, eraseDupsKeepFirst]
      congr 1
      rw [← ih, List.filter_filter, List.filter_filter]
      exact List.filter_congr (fun a _ => Bool.and_comm _ _)
    · rw [eraseDupsKeepFirst, List.filter_cons_of_neg hq,
        List.filter_cons_of_neg hq, List.filter_filter, ← ih]
      apply List.filter_congr
      intro a _
      by_cases hay : a = y
      · subst hay
        simp [Bool.not_eq_true] at hq
        simp [hq]
      · simp [hay]

theorem jsSetAdd_eq :
    ∀ (l seen : List String),
      jsSetAdd seen l =
        seen ++ eraseDupsKeepFirst (l.filter (fun x => decide (x ∉ seen))) := by
  intro l
  induction l with
  | nil => intro seen; simp [jsSetAdd, eraseDupsKeepFirst]
  | cons x xs ih =>
    intro seen
    by_cases hx : x ∈ seen
    · rw [jsSetAdd, if_pos hx, ih, List.filter_cons_of_neg (by simp [hx])]
    · rw [jsSetAdd, if_neg hx, ih, List.filter_cons_of_pos (by simp [hx]),
        eraseDupsKeepFirst, List.append_assoc, List.singleton_append]
      congr 2
      rw [filter_eraseDupsKeepFirst, List.filter_filter]
      congr 1
      apply List.filter_congr
      intro a _
      by_cases h1 : a ∈ seen <;> by_cases h2 : a = x <;>
        simp [h1, h2, List.mem_append]

theorem mem_jsSetAdd :
    ∀ (l seen : List String) (c : String),
      c ∈ jsSetAdd seen l ↔ c ∈ seen ∨ c ∈ l := by
  intro l
  induction l with
  | nil => intro seen c; simp [jsSetAdd]
  | cons x xs ih =>
    intro seen c
    by_cases hx : x ∈ seen
    · rw [jsSetAdd, if_pos hx, ih]
      simp only [List.mem_cons]
      constructor
      · rintro (h | h)
        · exact Or.inl h
        · exact Or.inr (Or.inr h)
      · rintro (h | h | h)
        · exact Or.inl h
        · subst h; exact Or.inl hx
        · exact Or.inr h
    · rw [jsSetAdd, if_neg hx, ih]
      simp only [List.mem_append, List.mem_singleton, List.mem_cons]
      tauto

theorem pairwise_eraseDupsKeepFirst :
    ∀ l : List String,
      (eraseDupsKeepFirst l).Pairwise
        (fun a b => firstIdx a l < firstIdx b l)
  | [] => by simp [eraseDupsKeepFirst]
  | x :: xs => by
    rw [eraseDupsKeepFirst]
    apply List.Pairwise.cons
    · intro b hb
      have hbx : b ≠ x := by simpa using List.of_mem_filter hb
      rw [firstIdx, firstIdx, if_pos rfl, if_neg (Ne.symm hbx)]
      exact Nat.succ_pos _
    · refine List.Pairwise.imp_of_mem (fun {a b} ha hb hab => ?_)
        (List.Pairwise.sublist (List.filter_sublist _)
          (pairwise_eraseDupsKeepFirst xs))
      have hax : a ≠ x := by simpa using List.of_mem_filter ha
      have hbx : b ≠ x := by simpa using List.of_mem_filter hb
      rw [firstIdx, firstIdx, if_neg (Ne.symm hax), if_neg (Ne.symm hbx)]
      exact Nat.succ_lt_succ hab

/-- C4: the derived `uniqueCommits` sequence lists each distinct commit
exactly once, contains exactly the commits of the line map, in first-seen
order across ascending line numbers (the association list is in ascending
key order, as built by the blame parser), and the derivation is a pure
function, hence deterministic on identical input. -/
theorem unique_commits_first_seen (m : List (Nat × String)) :
    (uniqueCommitsOf m).Nodup ∧
    (∀ c, c ∈ uniqueCommitsOf m ↔ c ∈ m.map Prod.snd) ∧
    (uniqueCommitsOf m).Pairwise
      (fun a b =>
        firstIdx a (m.map Prod.snd) < firstIdx b (m.map Prod.snd)) ∧
    uniqueCommitsOf m = uniqueCommitsOf m := by
  have hEq : uniqueCommitsOf m = eraseDupsKeepFirst (m.map Prod.snd) := by
    rw [uniqueCommitsOf, jsSetAdd_eq, List.nil_append]
    congr 1
    rw [List.filter_congr (q := fun _ => true) (by simp)]
    exact List.filter_true _
  refine ⟨?_, ?_, ?_, rfl⟩
  · rw [hEq]
    exact (pairwise_eraseDupsKeepFirst _).imp
      (fun {a b} h heq => by subst heq; exact lt_irrefl _ h)
  · intro c
    rw [uniqueCommitsOf, mem_jsSetAdd]
    simp
  · rw [hEq]
    exact pairwise_eraseDupsKeepFirst _

/-- Witness for C4: a concrete duplicate-bearing map, evaluated, plus the
dedup property from the theorem. -/
theorem unique_commits_first_seen_witness :
    uniqueCommitsOf [(1, "a"), (2, "b"), (3, "a")] = ["a", "b"] ∧
    (uniqueCommitsOf [(1, "a"), (2, "b"), (3, "a")]).Nodup :=
  ⟨by decide, (unique_commits_first_seen [(1, "a"), (2, "b"), (3, "a")]).1⟩

/-- The retry loop scans the candidates in order: the first decisive one
either supplies its diff (accepted, non-empty after trimming) or
propagates its process error; when no candidate is decisive, `fullDiff`
is left unchanged. -/
theorem tryAlternativesLoop_find (diffAt : String → Except String String)
    (commitHash filePath : String) :
    ∀ (cands : List String) (fd cmd : String),
      (tryAlternativesLoop diffAt commitHash filePath cands fd cmd).map
          Prod.fst =
        match cands.find? (decisiveCandidate diffAt filePath) with
        | some p => diffAt p
        | none => Except.ok fd := by
  intro cands
  induction cands with
  | nil => intro fd cmd; simp [tryAlternativesLoop, List.find?, Except.map]
  | cons p ps ih =>
    intro fd cmd
    by_cases h1 : p ≠ "" ∧ p ≠ filePath
    · cases hd : diffAt p with
      | error err =>
        have hacc : decisiveCandidate diffAt filePath p = true := by
          simp [decisiveCandidate, h1.1, h1.2, hd]
        rw [tryAlternativesLoop, if_pos h1,
          List.find?_cons_of_pos _ hacc]
        simp only [hd]
        rfl
      | ok d =>
        by_cases h2 : jsTrim d ≠ ""
        · have hacc : decisiveCandidate diffAt filePath p = true := by
            simp [decisiveCandidate, h1.1, h1.2, hd, h2]
          rw [tryAlternativesLoop, if_pos h1,
            List.find?_cons_of_pos _ hacc]
          simp only [hd, if_pos h2]
          rfl
        · have hacc : ¬ decisiveCandidate diffAt filePath p = true := by
            simp [decisiveCandidate, hd, h2]
          rw [tryAlternativesLoop, if_pos h1,
            List.find?_cons_of_neg _ hacc]
          simp only [hd, if_neg h2]
          exact ih fd (gitShowCmd commitHash p)
    · have hacc : ¬ decisiveCandidate diffAt filePath p = true := by
        simp only [not_and_or, not_not] at h1
        rcases h1 with h | h <;> simp [decisiveCandidate, h]
      rw [tryAlternativesLoop, if_neg (by tauto),
        List.find?_cons_of_neg _ hacc]
      exact ih fd cmd

/-- C7 (amended): the candidate paths are those modified files whose
whole path ends with the filename string (a suffix test, not an equality
test on the last path segment); the loop skips empty candidates and the
caller's own path, tries the rest in the commit's file-list order, and
accepts the first whose diff result is non-empty after trimming (a
candidate whose diff invocation throws propagates that error to the
enclosing `try`). -/
theorem basename_search_behavior :
    (∀ (out fn p : String),
      p ∈ possiblePathsOf out fn ↔
        p ∈ jsSplit (jsTrim out) '\n' ∧ jsEndsWith p fn = true) ∧
    (∀ (diffAt : String → Except String String)
       (commitHash filePath : String)
       (cands : List String) (fd cmd : String),
      (tryAlternativesLoop diffAt commitHash filePath cands fd cmd).map
          Prod.fst =
        match cands.find? (decisiveCandidate diffAt filePath) with
        | some p => diffAt p
        | none => Except.ok fd) := by
  constructor
  · intro out fn p
    simp [possiblePathsOf, List.mem_filter]
  · intro diffAt commitHash filePath cands fd cmd
    exact tryAlternativesLoop_find diffAt commitHash filePath cands fd cmd

/-- Witness for C7: first acceptable candidate of a concrete list is
taken (the empty entry and the caller's own path are skipped). -/
theorem basename_search_behavior_witness :
    (tryAlternativesLoop
      (fun p => if p = "old/test.ts" then Except.ok "D" else Except.ok "")
      "h" "src/test.ts" ["", "src/test.ts", "old/test.ts"] "" "c0").map
        Prod.fst = Except.ok "D" := by
  rw [basename_search_behavior.2
    (fun p => if p = "old/test.ts" then Except.ok "D" else Except.ok "")
    "h" "src/test.ts" ["", "src/test.ts", "old/test.ts"] "" "c0"]
  decide

/-- Counterexample for C7 as stated: with filename `test.ts`, a modified
file `contest.ts` is selected as a candidate (suffix match) and its diff
is accepted, although its last path segment is `contest.ts`, not
`test.ts`. -/
theorem basename_search_counterexample :
    possiblePathsOf "contest.ts" (lastSegment "src/test.ts") =
      ["contest.ts"] ∧
    lastSegment "contest.ts" ≠ lastSegment "src/test.ts" ∧
    (tryAlternativesLoop (fun _ => Except.ok "X") "h" "src/test.ts"
      ["contest.ts"] "" "c0").map Prod.fst = Except.ok "X" :=
  ⟨by decide, by decide, by decide⟩

theorem string_pos_iff (s : String) : 0 < s.length ↔ s ≠ "" := by
  constructor
  · intro h he
    subst he
    exact absurd h (by decide)
  · intro h
    rcases s with ⟨l⟩
    cases l with
    | nil => exact absurd rfl h
    | cons c cs => exact Nat.succ_pos _

/-- C1 (amended): the pipeline resolver `getLineEvolutionDiff` has a
two-tier chain — (1) direct path lookup, (2) suffix-name search over the
commit's modified files — stopping at the first tier with a non-empty
diff; when both are empty it concludes "no changes found" without a
parent-diff tier.  The three-tier chain ending in the parent-diff
fallback exists only in the unused `getCommitDiff` helper. -/
theorem diff_resolution_chain :
    (∀ (env : GitEnv) (h fp : String) (m : List (Nat × String))
       (s e : Nat) (wd direct : String),
      affectedLinesFor m h ≠ [] →
      env.showDiff h fp = Except.ok direct →
      jsTrim direct ≠ "" →
      getLineEvolutionDiffCore env h fp m s e wd =
        renderFilteredDiff direct (affectedLinesFor m h) s e) ∧
    (∀ (env : GitEnv) (h fp : String) (m : List (Nat × String))
       (s e : Nat) (wd direct nm : String) (res : String × String),
      affectedLinesFor m h ≠ [] →
      env.showDiff h fp = Except.ok direct →
      jsTrim direct = "" →
      env.nameOnly h = Except.ok nm →
      tryAlternativesLoop (env.showDiff h) h fp
          (possiblePathsOf nm (lastSegment fp)) direct (gitShowCmd h fp) =
        Except.ok res →
      jsTrim res.1 ≠ "" →
      getLineEvolutionDiffCore env h fp m s e wd =
        renderFilteredDiff res.1 (affectedLinesFor m h) s e) ∧
    (∀ (env : GitEnv) (h fp : String) (m : List (Nat × String))
       (s e : Nat) (wd direct nm : String) (res : String × String),
      affectedLinesFor m h ≠ [] →
      env.showDiff h fp = Except.ok direct →
      jsTrim direct = "" →
      env.nameOnly h = Except.ok nm →
      tryAlternativesLoop (env.showDiff h) h fp
          (possiblePathsOf nm (lastSegment fp)) direct (gitShowCmd h fp) =
        Except.ok res →
      jsTrim res.1 = "" →
      getLineEvolutionDiffCore env h fp m s e wd =
        noChangesMsg fp (affectedLinesFor m h) res.2 wd) ∧
    (∀ (direct fp : String) (ls : Option String)
       (diffAt : String → String) (pd : Option String),
      jsTrim direct ≠ "" →
      getCommitDiffCore direct fp ls diffAt pd = jsTrim direct) ∧
    (∀ (direct fp : String) (diffAt : String → String) (pd : String),
      jsTrim direct = "" → jsTrim pd ≠ "" →
      getCommitDiffCore direct fp none diffAt (some pd) = jsTrim pd) := by
  refine ⟨?_, ?_, ?_, ?_, ?_⟩
  · intro env h fp m s e wd direct haff hok hdir
    simp only [getLineEvolutionDiffCore,
      (List.isEmpty_eq_false).mpr haff, Bool.false_eq_true, if_false,
      hok, if_neg hdir, hdir]
  · intro env h fp m s e wd direct nm res haff hok hdir hnm hloop hres
    simp only [getLineEvolutionDiffCore,
      (List.isEmpty_eq_false).mpr haff, Bool.false_eq_true, if_false,
      hok, hdir, eq_self_iff_true, if_true, hnm, hloop, if_neg hres]
  · intro env h fp m s e wd direct nm res haff hok hdir hnm hloop hres
    simp only [getLineEvolutionDiffCore,
      (List.isEmpty_eq_false).mpr haff, Bool.false_eq_true, if_false,
      hok, hdir, eq_self_iff_true, if_true, hnm, hloop, hres, if_pos rfl]
  · intro direct fp ls diffAt pd hdir
    simp [getCommitDiffCore, (string_pos_iff (jsTrim direct)).2 hdir]
  · intro direct fp diffAt pd hdir hpd
    simp [getCommitDiffCore, hdir, (string_pos_iff (jsTrim pd)).2 hpd]

/-- Witness for C1 (amended): tier 3 of the unused helper returns the
parent diff; the pipeline resolver with both tiers empty concludes "no
changes found". -/
theorem diff_resolution_chain_witness :
    getCommitDiffCore "" "src/a.ts" none (fun _ => "") (some "PD") =
      jsTrim "PD" ∧
    getLineEvolutionDiffCore
      { showMeta := fun _ => none, showDiff := fun _ _ => Except.ok "",
        nameOnly := fun _ => Except.ok "" } "abc" "src/a.ts"
      [(5, "abc")] 5 5 "wd" =
      noChangesMsg "src/a.ts" (affectedLinesFor [(5, "abc")] "abc")
        ("", gitShowCmd "abc" "src/a.ts").2 "wd" :=
  ⟨diff_resolution_chain.2.2.2.2 "" "src/a.ts" (fun _ => "") "PD"
     (by decide) (by decide),
   diff_resolution_chain.2.2.1
     { showMeta := fun _ => none, showDiff := fun _ _ => Except.ok "",
       nameOnly := fun _ => Except.ok "" } "abc" "src/a.ts" [(5, "abc")]
     5 5 "wd" "" "" ("", gitShowCmd "abc" "src/a.ts")
     (by decide) (by rfl) (by decide) (by rfl) (by rfl) (by decide)⟩

/-- Counterexample for C1 as stated: with both structured tiers empty the
pipeline resolver concludes "no change was found" for the commit.  Its
embedding takes no parent-diff input at all (`GitEnv` carries only the
`git show` oracles used by `getLineEvolutionDiff`), so no third,
parent-diff tier is attempted before that conclusion; the helper that
does implement the parent-diff tier (`getCommitDiffCore`) would have
produced `"PARENT"` here, and is called from nowhere in the pipeline. -/
theorem fallback_chain_counterexample :
    getLineEvolutionDiffCore
      { showMeta := fun _ => none, showDiff := fun _ _ => Except.ok "",
        nameOnly := fun _ => Except.ok "" } "abc" "src/a.ts"
      [(5, "abc")] 5 5 "wd" =
      "# No changes found for src/a.ts in this commit\n" ++
      "# Affected lines: 5\n" ++
      "# Git command: git show abc --format=\"\" -- \"src/a.ts\"\n" ++
      "# Working dir: wd" ∧
    getCommitDiffCore "" "src/a.ts" none (fun _ => "") (some "PARENT") =
      "PARENT" :=
  ⟨by decide, by decide⟩

/-- C8: a failure while resolving one commit does not abort resolution
of the other commits, for both failure sites the source distinguishes:
a failed metadata query (`resolveCommitInfo` returning `none`, the
per-commit `catch`) only drops that commit's own entry — the engine
still returns the per-commit successes (up to the date sort) and every
commit that did resolve contributes its entry; a failed diff process is
absorbed by the `try`/`catch` inside `getLineEvolutionDiff`
(gitAnalysisEngine.ts:223-225), so the commit's entry is still produced,
with its diff degraded to the error string — regardless of the diff
oracles' behavior. -/
theorem per_commit_failure_isolated :
    ∀ (env : GitEnv) (commits : List String) (fp wd : String)
      (m : List (Nat × String)) (s e : Nat) (dt : String → Int),
      (getCommitDetailsCore env commits fp wd m s e dt).Perm
        (commits.filterMap (resolveCommitInfo env fp wd m s e)) ∧
      (∀ (c : String) (i : CommitInfo), c ∈ commits →
        resolveCommitInfo env fp wd m s e c = some i →
        i ∈ getCommitDetailsCore env commits fp wd m s e dt) ∧
      (∀ (c out hh au da msg : String),
        env.showMeta c = some out →
        parseShowParts out = some (hh, au, da, msg) →
        resolveCommitInfo env fp wd m s e c =
          some { hash := hh, author := au, date := da, message := msg,
                 diff := getLineEvolutionDiffCore env c fp m s e wd,
                 filename := jsFilenameOf fp }) ∧
      (∀ (c err : String),
        affectedLinesFor m c ≠ [] →
        env.showDiff c fp = Except.error err →
        getLineEvolutionDiffCore env c fp m s e wd =
          "# Error retrieving line evolution diff: " ++ err ++
          "\n# Commit: " ++ c ++ "\n# File: " ++ fp) := by
  intro env commits fp wd m s e dt
  refine ⟨List.perm_insertionSort _ _, ?_, ?_, ?_⟩
  · intro c i hc hres
    have hmem : i ∈ commits.filterMap (resolveCommitInfo env fp wd m s e) :=
      List.mem_filterMap.mpr ⟨c, hc, hres⟩
    exact ((List.perm_insertionSort _ _).mem_iff).mpr hmem
  · intro c out hh au da msg hmeta hparts
    simp [resolveCommitInfo, hmeta, hparts]
  · intro c err haff herr
    simp only [getLineEvolutionDiffCore,
      (List.isEmpty_eq_false).mpr haff, Bool.false_eq_true, if_false, herr]

/-- Witness for C8: commit `"bad"` fails its metadata query, yet the
entry of commit `"good"` is present in the overall result; and a commit
whose diff process throws still yields its entry, with the error-string
diff. -/
theorem per_commit_failure_isolated_witness :
    (envOneGood.showMeta "bad" = none ∧
     ∃ i, resolveCommitInfo envOneGood "f.ts" "wd" [(1, "good")] 1 1
        "good" = some i ∧
      i ∈ getCommitDetailsCore envOneGood ["bad", "good"] "f.ts" "wd"
        [(1, "good")] 1 1 (fun _ => 0)) ∧
    getLineEvolutionDiffCore envDiffFail "g" "f.ts" [(1, "g")] 1 1 "wd" =
      "# Error retrieving line evolution diff: boom" ++
      "\n# Commit: g\n# File: f.ts" ∧
    ∃ j, resolveCommitInfo envDiffFail "f.ts" "wd" [(1, "g")] 1 1 "g" =
        some j ∧
      j.diff =
        "# Error retrieving line evolution diff: boom" ++
        "\n# Commit: g\n# File: f.ts" ∧
      j ∈ getCommitDetailsCore envDiffFail ["g"] "f.ts" "wd" [(1, "g")]
        1 1 (fun _ => 0) :=
  ⟨⟨by decide,
    { hash := "H", author := "Au", date := "D", message := "Msg",
      diff := "# No changes found for f.ts in this commit\n" ++
        "# Affected lines: 1\n" ++
        "# Git command: git show good --format=\"\" -- \"f.ts\"\n" ++
        "# Working dir: wd",
      filename := "f.ts" },
    by decide,
    (per_commit_failure_isolated envOneGood ["bad", "good"] "f.ts" "wd"
      [(1, "good")] 1 1 (fun _ => 0)).2.1 "good" _ (by decide)
      (by decide)⟩,
   (per_commit_failure_isolated envDiffFail ["g"] "f.ts" "wd" [(1, "g")]
     1 1 (fun _ => 0)).2.2.2 "g" "boom" (by decide) (by rfl),
   { hash := "H", author := "Au", date := "D", message := "Msg",
     diff := "# Error retrieving line evolution diff: boom" ++
       "\n# Commit: g\n# File: f.ts",
     filename := "f.ts" },
   by decide,
   by decide,
   (per_commit_failure_isolated envDiffFail ["g"] "f.ts" "wd" [(1, "g")]
     1 1 (fun _ => 0)).2.1 "g" _ (by decide) (by decide)⟩

/-- C5 (amended): `getCommitDetailsWithLineTracking` itself re-sorts its
results by date, most recent first (a stable sort), before returning;
the first-seen-by-line ordering survives only when it already coincides
with descending date order. -/
theorem engine_order_sorted :
    ∀ (env : GitEnv) (commits : List String) (fp wd : String)
      (m : List (Nat × String)) (s e : Nat) (dt : String → Int),
      (getCommitDetailsCore env commits fp wd m s e dt).Sorted
        (fun a b => dt b.date ≤ dt a.date) ∧
      ((commits.filterMap (resolveCommitInfo env fp wd m s e)).Sorted
          (fun a b => dt b.date ≤ dt a.date) →
        getCommitDetailsCore env commits fp wd m s e dt =
          commits.filterMap (resolveCommitInfo env fp wd m s e)) := by
  intro env commits fp wd m s e dt
  haveI : IsTotal CommitInfo (fun a b => dt b.date ≤ dt a.date) :=
    ⟨fun a b => le_total _ _⟩
  haveI : IsTrans CommitInfo (fun a b => dt b.date ≤ dt a.date) :=
    ⟨fun _ _ _ h1 h2 => le_trans h2 h1⟩
  exact ⟨List.sorted_insertionSort _ _, fun hs => hs.insertionSort_eq⟩

/-- Witness for C5 (amended): a singleton resolution is already sorted,
so the engine returns it unchanged. -/
theorem engine_order_sorted_witness :
    getCommitDetailsCore envTwoDates ["c1"] "f.ts" "wd"
      [(1, "c1"), (2, "c2")] 1 2 dateTimeTwo =
      ["c1"].filterMap
        (resolveCommitInfo envTwoDates "f.ts" "wd" [(1, "c1"), (2, "c2")]
          1 2) :=
  (engine_order_sorted envTwoDates ["c1"] "f.ts" "wd"
    [(1, "c1"), (2, "c2")] 1 2 dateTimeTwo).2 (by decide)

/-- Counterexample for C5 as stated: with first-seen order `c1, c2` and
`c1` older than `c2`, the engine returns `h2` before `h1` — the date
re-sort happens inside `getCommitDetailsWithLineTracking`, so the final
sequence does not preserve the first-seen ordering. -/
theorem engine_order_counterexample :
    ((["c1", "c2"].filterMap
        (resolveCommitInfo envTwoDates "f.ts" "wd" [(1, "c1"), (2, "c2")]
          1 2)).map CommitInfo.hash = ["h1", "h2"]) ∧
    ((getCommitDetailsCore envTwoDates ["c1", "c2"] "f.ts" "wd"
        [(1, "c1"), (2, "c2")] 1 2 dateTimeTwo).map CommitInfo.hash =
      ["h2", "h1"]) :=
  ⟨by decide, by decide⟩

/-- C9 (amended): when the blame text parses to no attributed line (empty
or entirely unattributed), the pipeline returns the plain record with
empty commit, pull-request and timeline lists — `GitAnalysisResult`
carries no "no history" marker, so this value is identical to that of an
analysis that found zero commits. -/
theorem empty_blame_plain_result :
    ∀ (env : GitEnv) (prFor : String → Option PullRequestInfo)
      (dt : String → Int) (blame fp wd : String) (s e : Nat),
      parseBlameWithLineTracking blame s = [] →
      analyzeCore env prFor dt blame fp wd s e =
        { commits := [], pullRequests := [], timeline := [] } := by
  intro env prFor dt blame fp wd s e hparse
  simp [analyzeCore, hparse, uniqueCommitsOf, jsSetAdd,
    getCommitDetailsCore, sortByDateDesc, findPullRequestsCore,
    keepFirstByNumber, createTimeline]

/-- Witness for C9 (amended) at the empty blame text. -/
theorem empty_blame_plain_result_witness :
    analyzeCore envTriv (fun _ => none) (fun _ => 0) "" "f.ts" "wd" 3 7 =
      { commits := [], pullRequests := [], timeline := [] } :=
  empty_blame_plain_result envTriv (fun _ => none) (fun _ => 0) "" "f.ts"
    "wd" 3 7 (by decide)

/-- Counterexample for C9 as stated: the empty blame text and a blame
text with no commit headers produce the very same plain empty result —
there is no distinguishable "no history" value. -/
theorem no_history_counterexample :
    analyzeCore envTriv (fun _ => none) (fun _ => 0) "" "f.ts" "wd" 10 12 =
      { commits := [], pullRequests := [], timeline := [] } ∧
    analyzeCore envTriv (fun _ => none) (fun _ => 0)
      "not a blame header" "f.ts" "wd" 10 12 =
      { commits := [], pullRequests := [], timeline := [] } :=
  ⟨by decide, by decide⟩

end CodeScribe
